import Mathlib

/-!
Shallow embedding of the subtitle indexing/caching core of
`src/subtitle_search_tool.py` (class `SubtitleSearchTool`), together with
theorems checking the natural-language specification against it.

Modelling conventions:
* Python `float` modification times are modelled as `Nat` (only ordering is
  used by the code).
* The filesystem, the `chardet`+`pysubs2` parse outcome and the raw text read
  (`open(..., errors='ignore')`) of a file are bundled in `FSFile`; a path that
  does not exist maps to `none`.  A parse that raises is `parsed = none`
  (the code catches every exception).
* Python exceptions never escape the embedded functions (every modelled code
  path is wrapped in `try/except` in the source), so the embeddings are total
  functions; "does not throw" is expressed by totality plus the returned value.
* The `self.subtitle_cache` dict is an association list `Cache`; dict
  assignment is `cacheInsert` (replace the key, keep all others).
* Re-parse counting: the third component returned by `getCachedSubtitle` is
  the number of parse attempts performed by that call (0 on a cache hit).
-/

namespace SubSearch

/-- Embeds the `SubtitleLine` dataclass (src lines 25-29): one cue with a
millisecond start time and its text. -/
structure SubtitleLine where
  start_ms : Nat
  text : String
deriving DecidableEq

/-- Embeds the `CachedSubtitle` dataclass (src lines 31-36): the parsed cues
of one file plus the modification time recorded at parse time. -/
structure CachedSubtitle where
  file_path : String
  lines : List SubtitleLine
  last_modified : Nat
deriving DecidableEq

/-- Embeds one value of `self.subtitle_to_video_map` (src lines 193-198 for
standalone files, 266-273 for extracted tracks).  Standalone entries carry no
`language`/`title` keys, modelled by `none`. -/
structure TrackInfo where
  original_file : String
  is_extracted : Bool
  track_index : Int
  language : Option String
  title : Option String
deriving DecidableEq

/-- State of one on-disk file as the embedded code observes it:
`mtime` is `os.path.getmtime`, `parsed` is the outcome of the
`chardet` + `pysubs2.load` step (src lines 327-340; `none` when that step
raises), `raw` is the text produced by the degraded read
`open(path, encoding=utf-8, errors=ignore).read()` (src lines 467-469). -/
structure FSFile where
  mtime : Nat
  parsed : Option (List SubtitleLine)
  raw : String
deriving DecidableEq

/-- The `self.subtitle_cache` dict (src line 53), as an association list. -/
abbrev Cache := List (String × CachedSubtitle)

/-- Embeds `SubtitleLine(start_ms=line.start, text=line.text.strip())`
(src lines 337-340): Python `str.strip()` is modelled by `String.trim`. -/
def stripLine (l : SubtitleLine) : SubtitleLine :=
  ⟨l.start_ms, l.text.trim⟩

/-- Dict assignment `self.subtitle_cache[file_path] = cached_subtitle`
(src line 348): the new binding replaces any prior entry for the key and
keeps every other key. -/
def cacheInsert (cache : Cache) (path : String) (e : CachedSubtitle) : Cache :=
  (path, e) :: cache.filter (fun kv => kv.1 != path)

/-- Embeds the parse-and-store tail of `_get_cached_subtitle`
(src lines 324-354): attempt the parse (counted as one parse attempt); on
failure the exception is caught and `None` is returned with the cache
untouched; on success a fresh `CachedSubtitle` stamped with the current
mtime is stored and returned. -/
def parseAndCache (f : FSFile) (cache : Cache) (path : String) :
    Option CachedSubtitle × Cache × Nat :=
  match f.parsed with
  | none => (none, cache, 1)
  | some ls =>
      (some ⟨path, ls.map stripLine, f.mtime⟩,
       cacheInsert cache path ⟨path, ls.map stripLine, f.mtime⟩, 1)

/-- Embeds `SubtitleSearchTool._get_cached_subtitle` (src lines 309-354).
Returns the value the Python function returns, the cache after the call, and
the number of parse attempts the call performed. -/
def getCachedSubtitle (fs : String → Option FSFile) (cache : Cache) (path : String) :
    Option CachedSubtitle × Cache × Nat :=
  match fs path with
  | none => (none, cache, 0)
  | some f =>
      match cache.lookup path with
      | some e =>
          if f.mtime ≤ e.last_modified then (some e, cache, 0)
          else parseAndCache f cache path
      | none => parseAndCache f cache path

/-- Embeds `SubtitleSearchTool._format_time`'s zero padding: Python
`f"..:02d.."` on a non-negative int pads with zeros to width at least 2. -/
def pad2 (n : Nat) : String :=
  if n < 10 then "0" ++ toString n else toString n

/-- Embeds `SubtitleSearchTool._format_time` (src lines 504-511). -/
def formatTime (milliseconds : Nat) : String :=
  let seconds := milliseconds / 1000
  let hours := seconds / 3600
  let minutes := (seconds % 3600) / 60
  let secs := seconds % 60
  pad2 hours ++ ":" ++ pad2 minutes ++ ":" ++ pad2 secs

/-- Literal substring test: models `re.compile(re.escape(term)).search(text)`
being truthy — the escaped pattern matches exactly the literal term. -/
def containsSub (haystack needle : String) : Bool :=
  decide (needle.toList <:+: haystack.toList)

/-- Character-wise lower-casing (ASCII, as `Char.toLower` maps only
`A`-`Z`), modelling the case normalisation `re.IGNORECASE` performs on a
literal pattern. -/
def lowerString (s : String) : String :=
  (s.toList.map Char.toLower).asString

/-- Embeds the query matcher built in `_search_worker` (src lines 396-397):
`re.compile(re.escape(term), 0 or re.IGNORECASE)`.  `re.IGNORECASE` on a
literal pattern is modelled (faithfully for ASCII) as comparing the
lower-cased term against the lower-cased text. -/
def patMatches (term : String) (caseSensitive : Bool) (text : String) : Bool :=
  if caseSensitive then containsSub text term
  else containsSub (lowerString text) (lowerString term)

/-- Python `dict.get(key, default)` on a string-keyed dict whose values may be
`None`: the default is used only when the key is absent; a key present with
value `None` yields `None`. -/
def pyDictGet (d : List (String × Option String)) (k : String) (dflt : Option String) :
    Option String :=
  match d.lookup k with
  | some v => v
  | none => dflt

/-- Result dict of `chardet.detect` (src line 330): it always contains the
key `encoding`, whose value is `None` exactly when detection fails.  (The
`confidence`/`language` keys it also carries are unused by this code.) -/
def chardetResult (detected : Option String) : List (String × Option String) :=
  [("encoding", detected)]

/-- Embeds `encoding = encoding_result.get(encoding-key, utf-8-default)`
(src line 331 and identically line 450). -/
def detectEncodingStep (detected : Option String) : Option String :=
  pyDictGet (chardetResult detected) "encoding" (some "utf-8")

/-- Ambient per-run context, fixed for the duration of one search run:
the filesystem view, the `subtitle_to_video_map` (src line 49) and the pure
string function `os.path.relpath(·, self.folder_path)` (src lines 487, 502),
taken as a parameter since the folder path is fixed per run. -/
structure Ctx where
  fs : String → Option FSFile
  vmap : String → Option TrackInfo
  relpath : String → String

/-- Embeds `SubtitleSearchTool._get_display_filename` (src lines 480-502). -/
def getDisplayFilename (ctx : Ctx) (p : String) : String :=
  match ctx.vmap p with
  | some info =>
      if info.is_extracted then
        ctx.relpath info.original_file ++ " [Track " ++ toString info.track_index ++ ": " ++
          info.language.getD "unknown" ++
          (if info.title.getD "" ≠ "" then " - " ++ info.title.getD "" else "") ++ "]"
      else ctx.relpath p
  | none => ctx.relpath p

/-- One tuple appended to `results` by `_search_in_file_cached`
(src line 442): display name, formatted time, text, raw start milliseconds. -/
structure SearchRow where
  display : String
  time : String
  text : String
  start_ms : Nat
deriving DecidableEq

/-- Embeds `SubtitleSearchTool._search_in_file_cached` (src lines 425-478):
search the cached cues when the cache call succeeds; otherwise retry the
direct parse; if that raises too, fall back to a raw-text search that
reports at most one synthetic row; every failure is swallowed (empty result),
never raised.  Returns the matches and the cache after the call. -/
def searchInFileCached (ctx : Ctx) (cache : Cache) (path term : String) (cs : Bool) :
    List SearchRow × Cache :=
  let r := getCachedSubtitle ctx.fs cache path
  match r.1 with
  | some cached =>
      (cached.lines.filterMap (fun l =>
        if patMatches term cs l.text then
          some ⟨getDisplayFilename ctx path, formatTime l.start_ms, l.text, l.start_ms⟩
        else none), r.2.1)
  | none =>
      match ctx.fs path with
      | none => ([], r.2.1)
      | some f =>
          match f.parsed with
          | some ls =>
              (ls.filterMap (fun l =>
                if patMatches term cs l.text then
                  some ⟨getDisplayFilename ctx path, formatTime l.start_ms, l.text.trim,
                        l.start_ms⟩
                else none), r.2.1)
          | none =>
              if patMatches term cs f.raw then
                ([⟨getDisplayFilename ctx path, "--:--:--", "Text found (format not parsed)", 0⟩],
                 r.2.1)
              else ([], r.2.1)

/-- Embeds the collection loop of `_search_worker` (src lines 399-414): the
per-file tasks run one at a time in some completion order (the list argument),
each reading and updating the shared cache, and their result lists are
concatenated in that order. -/
def runSearch (ctx : Ctx) (term : String) (cs : Bool) :
    List String → Cache → List SearchRow × Cache
  | [], cache => ([], cache)
  | p :: rest, cache =>
      let r := searchInFileCached ctx cache p term cs
      let rr := runSearch ctx term cs rest r.2
      (r.1 ++ rr.1, rr.2)

/-- Cue list a successful parse of `f` produces, after per-line stripping. -/
def parsedLines (f : FSFile) : Option (List SubtitleLine) :=
  f.parsed.map (List.map stripLine)

/-- Matches one file would contribute, as a pure function of the filesystem
view alone (no cache): the reference value per-file search is proved to
compute. -/
def pureRows (ctx : Ctx) (p term : String) (cs : Bool) : List SearchRow :=
  match ctx.fs p with
  | none => []
  | some f =>
      match f.parsed with
      | some ls =>
          (ls.map stripLine).filterMap (fun l =>
            if patMatches term cs l.text then
              some ⟨getDisplayFilename ctx p, formatTime l.start_ms, l.text, l.start_ms⟩
            else none)
      | none =>
          if patMatches term cs f.raw then
            [⟨getDisplayFilename ctx p, "--:--:--", "Text found (format not parsed)", 0⟩]
          else []

/-- Cache coherence with a filesystem view: every entry holds exactly the
stripped cues a parse of its file yields.  Holds for the empty cache and is
preserved by every cache operation the program performs within a run. -/
def Coherent (fs : String → Option FSFile) (cache : Cache) : Prop :=
  ∀ p e, cache.lookup p = some e → ∃ f, fs p = some f ∧ parsedLines f = some e.lines

/-- One subtitle stream as reported by the `ffprobe` metadata call
(src lines 214-224): codec name and the optional `language`/`title` tags;
a missing field models a missing dict key. -/
structure MkvStream where
  codec_name : Option String
  language : Option String
  title : Option String
deriving DecidableEq

/-- Oracle for the external `ffprobe`/`ffmpeg` calls of
`_extract_mkv_subtitles`: `probe = none` models a non-zero `ffprobe` status
or an exception (src lines 220-222, 277-278); `extractOk i` models stream
`i`'s `ffmpeg` extraction returning 0 with the output file present
(src line 263). -/
structure Extractor where
  probe : Option (List MkvStream)
  extractOk : Nat → Bool

/-- Embeds the codec-to-extension choice (src lines 233-242):
`stream.get(codec-name-key, unknown-default)` then the if/elif chain,
defaulting to `.srt`. -/
def codecExt (codec : String) : String :=
  if codec = "subrip" then ".srt"
  else if codec = "ass" then ".ass"
  else if codec = "webvtt" then ".vtt"
  else ".srt"

/-- Embeds `language = tags.get(language-key, track-i-default)`
(src line 246). -/
def streamLanguage (i : Nat) (s : MkvStream) : String :=
  s.language.getD ("track" ++ toString i)

/-- Embeds `title = tags.get(title-key, empty-default)` (src line 247). -/
def streamTitle (s : MkvStream) : String :=
  s.title.getD ""

/-- Embeds the construction of `output_path` (src lines 249-254):
`os.path.join(temp_dir, base_name + track_info + ext)` where `track_info`
is an underscore, the language, and — only when the title is non-empty — an
underscore and the title. -/
def outputPath (tempDir baseName : String) (i : Nat) (s : MkvStream) : String :=
  tempDir ++ "/" ++ baseName ++ "_" ++ streamLanguage i s ++
    (if streamTitle s ≠ "" then "_" ++ streamTitle s else "") ++
    codecExt (s.codec_name.getD "unknown")

/-- Embeds the `subtitle_to_video_map` entry recorded for a successfully
extracted track (src lines 266-273). -/
def extractedTrackInfo (mkvPath : String) (i : Nat) (s : MkvStream) : TrackInfo :=
  ⟨mkvPath, true, (i : Int), some (streamLanguage i s), some (streamTitle s)⟩

/-- Embeds the `for i, stream in enumerate(streams)` loop of
`_extract_mkv_subtitles` (src lines 229-273): a stream whose extraction
fails is skipped and the loop continues with the next stream; a successful
stream contributes its output path and map entry. -/
def extractStreams (mkvPath tempDir baseName : String) (ok : Nat → Bool) :
    Nat → List MkvStream → List (String × TrackInfo)
  | _, [] => []
  | i, s :: rest =>
      if ok i then
        (outputPath tempDir baseName i s, extractedTrackInfo mkvPath i s) ::
          extractStreams mkvPath tempDir baseName ok (i + 1) rest
      else extractStreams mkvPath tempDir baseName ok (i + 1) rest

/-- Embeds `SubtitleSearchTool._extract_mkv_subtitles` (src lines 211-278).
`baseName` stands for `Path(mkv_path).stem`, passed separately since the
embedding does not model path-component arithmetic. -/
def extractMkvSubtitles (mkvPath tempDir baseName : String) (oracle : Extractor) :
    List (String × TrackInfo) :=
  match oracle.probe with
  | none => []
  | some streams => extractStreams mkvPath tempDir baseName oracle.extractOk 0 streams

/-! ## Helper lemmas -/

theorem length_le_toDigitsCore (b : Nat) :
    ∀ (f n : Nat) (ds : List Char), ds.length ≤ (Nat.toDigitsCore b f n ds).length := by
  intro f
  induction f with
  | zero => intro n ds; simp [Nat.toDigitsCore]
  | succ f ih =>
      intro n ds
      unfold Nat.toDigitsCore
      by_cases h : n / b = 0
      · simp [h]
      · simp only [h, if_false]
        have h1 : ds.length ≤ ((n % b).digitChar :: ds).length := by
          simp only [List.length_cons]
          omega
        exact le_trans h1 (ih _ _)

theorem succ_length_le_toDigitsCore (b f n : Nat) (ds : List Char) (hf : 0 < f) :
    ds.length + 1 ≤ (Nat.toDigitsCore b f n ds).length := by
  cases f with
  | zero => omega
  | succ f =>
      unfold Nat.toDigitsCore
      by_cases h : n / b = 0
      · simp [h]
      · simp only [h, if_false]
        have h1 : ds.length + 1 ≤ ((n % b).digitChar :: ds).length := by
          simp only [List.length_cons]
          omega
        exact le_trans h1 (length_le_toDigitsCore b f _ _)

theorem two_le_repr_length (n : Nat) (hn : 10 ≤ n) : 2 ≤ (Nat.repr n).length := by
  unfold Nat.repr Nat.toDigits
  rw [List.length_asString]
  have hb : ¬ n / 10 = 0 := by omega
  rw [show n + 1 = Nat.succ n from rfl]
  unfold Nat.toDigitsCore
  simp only [hb, if_false]
  exact succ_length_le_toDigitsCore 10 n (n / 10) [Nat.digitChar (n % 10)] (by omega)

theorem pad2_length_eq_two : ∀ n < 100, (pad2 n).length = 2 := by decide

theorem two_le_pad2_length (n : Nat) : 2 ≤ (pad2 n).length := by
  by_cases h : n < 10
  · have := pad2_length_eq_two n (by omega)
    omega
  · unfold pad2
    rw [if_neg h]
    exact two_le_repr_length n (by omega)

theorem lookup_filter_ne (cache : Cache) (path q : String) (hq : q ≠ path) :
    (cache.filter (fun kv => kv.1 != path)).lookup q = cache.lookup q := by
  have hqp : (q == path) = false := by simpa using hq
  induction cache with
  | nil => rfl
  | cons kv rest ih =>
      by_cases h : kv.1 = path
      · have hb : (kv.1 != path) = false := by simpa using h
        simp [List.filter, hb, List.lookup, h, hqp, ih]
      · simp only [List.filter]
        have hb : (kv.1 != path) = true := by simpa using h
        rw [hb]
        by_cases hqk : q = kv.1
        · simp [List.lookup, hqk]
        · have hne : (q == kv.1) = false := by simpa using hqk
          simp [List.lookup, hne, ih]

theorem lookup_cacheInsert_self (cache : Cache) (path : String) (e : CachedSubtitle) :
    (cacheInsert cache path e).lookup path = some e := by
  simp [cacheInsert, List.lookup]

theorem lookup_cacheInsert_ne (cache : Cache) (path q : String) (e : CachedSubtitle)
    (hq : q ≠ path) : (cacheInsert cache path e).lookup q = cache.lookup q := by
  unfold cacheInsert
  have hne : (q == path) = false := by simpa using hq
  simp only [List.lookup, hne]
  exact lookup_filter_ne cache path q hq

theorem getCached_fs_none (fs : String → Option FSFile) (cache : Cache) (path : String)
    (hf : fs path = none) : getCachedSubtitle fs cache path = (none, cache, 0) := by
  unfold getCachedSubtitle
  rw [hf]

theorem getCached_hit (fs : String → Option FSFile) (cache : Cache) (path : String)
    (f : FSFile) (e : CachedSubtitle) (hf : fs path = some f)
    (he : cache.lookup path = some e) (hm : f.mtime ≤ e.last_modified) :
    getCachedSubtitle fs cache path = (some e, cache, 0) := by
  simp only [getCachedSubtitle, hf, he]
  rw [if_pos hm]

theorem getCached_stale (fs : String → Option FSFile) (cache : Cache) (path : String)
    (f : FSFile) (e : CachedSubtitle) (hf : fs path = some f)
    (he : cache.lookup path = some e) (hm : e.last_modified < f.mtime) :
    getCachedSubtitle fs cache path = parseAndCache f cache path := by
  simp only [getCachedSubtitle, hf, he]
  rw [if_neg (by omega)]

theorem getCached_miss (fs : String → Option FSFile) (cache : Cache) (path : String)
    (f : FSFile) (hf : fs path = some f) (he : cache.lookup path = none) :
    getCachedSubtitle fs cache path = parseAndCache f cache path := by
  simp only [getCachedSubtitle, hf, he]

theorem parseAndCache_eq_some (f : FSFile) (cache : Cache) (path : String)
    (v : CachedSubtitle) (cache₂ : Cache) (n : Nat)
    (h : parseAndCache f cache path = (some v, cache₂, n)) :
    v.last_modified = f.mtime ∧ cache₂ = cacheInsert cache path v := by
  cases hp : f.parsed with
  | none => simp [parseAndCache, hp] at h
  | some ls =>
      simp only [parseAndCache, hp, Prod.mk.injEq, Option.some.injEq] at h
      obtain ⟨hv, hc, hn⟩ := h
      subst hv
      exact ⟨rfl, hc.symm⟩

/-! ## Claim theorems -/

/-- C4: for every path that does not exist on disk, the cache's `get`
operation (`_get_cached_subtitle`, src lines 311-314) returns absent
(`None`) with the cache untouched and no parse attempted; the embedding is a
total function, so no exception escapes. -/
theorem c4_nonexistent_path_returns_none :
    ∀ (fs : String → Option FSFile) (cache : Cache) (path : String),
      fs path = none → getCachedSubtitle fs cache path = (none, cache, 0) := by
  intro fs cache path h
  unfold getCachedSubtitle
  rw [h]

theorem c4_nonexistent_path_returns_none_witness :
    getCachedSubtitle (fun _ => none) [] "a.srt" = (none, [], 0) :=
  c4_nonexistent_path_returns_none (fun _ => none) [] "a.srt" rfl

/-- C10: `_format_time` (src lines 504-511) is total on non-negative
millisecond counts and produces `HH:MM:SS` with `hours = ms / 3600000`
(zero-padded to at least two digits), minutes and seconds each in `[0, 60)`
zero-padded to exactly two digits, sub-second remainders floored; in
particular 5000 ms formats as `00:00:05`. -/
theorem c10_format_time :
    ∀ ms : Nat,
      formatTime ms =
        pad2 (ms / 3600000) ++ ":" ++ pad2 (ms / 60000 % 60) ++ ":" ++ pad2 (ms / 1000 % 60) ∧
      ms / 60000 % 60 < 60 ∧ ms / 1000 % 60 < 60 ∧
      2 ≤ (pad2 (ms / 3600000)).length ∧
      (pad2 (ms / 60000 % 60)).length = 2 ∧ (pad2 (ms / 1000 % 60)).length = 2 ∧
      formatTime 5000 = "00:00:05" := by
  intro ms
  have h1 : ms / 1000 / 3600 = ms / 3600000 := by omega
  have h2 : ms / 1000 % 3600 / 60 = ms / 60000 % 60 := by omega
  refine ⟨?_, by omega, by omega, two_le_pad2_length _,
    pad2_length_eq_two _ (by omega), pad2_length_eq_two _ (by omega), by decide⟩
  simp only [formatTime]
  rw [h1, h2]

/-- C7 (code bug): the encoding-detection step (src line 331, likewise
line 450) is `encoding_result.get(encoding-key, utf-8-default)`, but
`chardet.detect` always returns a dict containing the `encoding` key — with
value `None` when detection fails — and Python `dict.get` applies its
default only for a missing key.  So on detection failure the step yields
`None`, not the claimed safe default `utf-8`. -/
theorem c7_encoding_default_never_applies :
    detectEncodingStep none = none ∧ ¬ detectEncodingStep none = some "utf-8" := by
  constructor
  · decide
  · decide

/-- C6 (counterexample): two distinct subtitle streams — tracks 0 and 1 of
the same container, both `subrip` with language tag `eng` and no title —
receive the same temporary output path (src lines 249-254), so the second
extraction overwrites the first, contradicting the claimed collision
resistance. -/
theorem c6_counterexample_same_path_distinct_tracks :
    outputPath "/tmp" "movie" 0 ⟨some "subrip", some "eng", none⟩ =
      outputPath "/tmp" "movie" 1 ⟨some "subrip", some "eng", none⟩ ∧
    outputPath "/tmp" "movie" 0 ⟨some "subrip", some "eng", none⟩ = "/tmp/movie_eng.srt" := by
  constructor
  · decide
  · decide

/-- C6 (amended): the temporary output path is a deterministic function of
the container's base name and the stream's resolved language, title and
codec only — the track index does not enter the path (it appears only
through the default language placeholder when the language tag is absent).
Consequently distinct streams agreeing on those components collide. -/
theorem c6_amended_path_ignores_track_index :
    ∀ (tempDir baseName : String) (i j : Nat) (s t : MkvStream),
      streamLanguage i s = streamLanguage j t → streamTitle s = streamTitle t →
      s.codec_name = t.codec_name →
      outputPath tempDir baseName i s = outputPath tempDir baseName j t := by
  intro td bn i j s t hl ht hc
  unfold outputPath
  rw [hl, ht, hc]

theorem c6_amended_path_ignores_track_index_witness :
    outputPath "/tmp" "movie" 0 ⟨some "subrip", some "eng", none⟩ =
      outputPath "/tmp" "movie" 5 ⟨some "subrip", some "eng", none⟩ :=
  c6_amended_path_ignores_track_index "/tmp" "movie" 0 5
    ⟨some "subrip", some "eng", none⟩ ⟨some "subrip", some "eng", none⟩
    (by decide) (by decide) rfl

/-- C8: the matcher compiled in `_search_worker` (src lines 396-397) treats
the query as a literal substring; with `case_sensitive = false` the query
`Hello` matches a cue containing `hello world` while with
`case_sensitive = true` it does not; more generally, case-insensitive
matching is invariant under changing the letter case of the query or of the
cue text, and case-sensitive matching holds exactly when the query occurs as
an exact-case substring of the text. -/
theorem c8_case_sensitivity :
    patMatches "Hello" false "hello world" = true ∧
    patMatches "Hello" true "hello world" = false ∧
    (∀ q₁ q₂ text : String, lowerString q₁ = lowerString q₂ →
        patMatches q₁ false text = patMatches q₂ false text) ∧
    (∀ q t₁ t₂ : String, lowerString t₁ = lowerString t₂ →
        patMatches q false t₁ = patMatches q false t₂) ∧
    (∀ q text : String, patMatches q true text = true ↔ q.toList <:+: text.toList) := by
  refine ⟨by decide, by decide, ?_, ?_, ?_⟩
  · intro q₁ q₂ text h
    simp [patMatches, h]
  · intro q t₁ t₂ h
    simp [patMatches, h]
  · intro q text
    simp [patMatches, containsSub]

theorem c8_case_sensitivity_witness :
    patMatches "HeLLo" false "say hello" = patMatches "hello" false "say hello" :=
  c8_case_sensitivity.2.2.1 "HeLLo" "hello" "say hello" (by decide)

/-- C1: cache hit.  First part: whenever the path exists on disk and the
cache holds an entry whose `last_modified` is at least the current
modification time, `_get_cached_subtitle` returns that entry unchanged, the
cache is untouched and zero parses are performed (src lines 309-322).
Second part: whatever state a first successful `get` leaves behind, an
immediately following `get` on the unchanged file returns the identical
`CachedSubtitle` (hence element-wise identical cue sequences) with zero
parses. -/
theorem c1_cache_hit :
    (∀ (fs : String → Option FSFile) (cache : Cache) (path : String) (f : FSFile)
        (e : CachedSubtitle),
        fs path = some f → cache.lookup path = some e → f.mtime ≤ e.last_modified →
        getCachedSubtitle fs cache path = (some e, cache, 0)) ∧
    (∀ (fs : String → Option FSFile) (cache cache₂ : Cache) (path : String)
        (v : CachedSubtitle) (n : Nat),
        getCachedSubtitle fs cache path = (some v, cache₂, n) →
        getCachedSubtitle fs cache₂ path = (some v, cache₂, 0)) := by
  constructor
  · intro fs cache path f e hf he hm
    exact getCached_hit fs cache path f e hf he hm
  · intro fs cache cache₂ path v n h
    cases hf : fs path with
    | none =>
        rw [getCached_fs_none fs cache path hf] at h
        simp at h
    | some f =>
        cases he : cache.lookup path with
        | some e =>
            by_cases hm : f.mtime ≤ e.last_modified
            · rw [getCached_hit fs cache path f e hf he hm] at h
              simp only [Prod.mk.injEq, Option.some.injEq] at h
              obtain ⟨hv, hc, hn⟩ := h
              subst hc
              rw [← hv]
              exact getCached_hit fs cache path f e hf he hm
            · rw [getCached_stale fs cache path f e hf he (by omega)] at h
              obtain ⟨hlm, hc⟩ := parseAndCache_eq_some f cache path v cache₂ n h
              have hl : cache₂.lookup path = some v := by
                rw [hc]
                exact lookup_cacheInsert_self _ _ _
              exact getCached_hit fs cache₂ path f v hf hl (by omega)
        | none =>
            rw [getCached_miss fs cache path f hf he] at h
            obtain ⟨hlm, hc⟩ := parseAndCache_eq_some f cache path v cache₂ n h
            have hl : cache₂.lookup path = some v := by
              rw [hc]
              exact lookup_cacheInsert_self _ _ _
            exact getCached_hit fs cache₂ path f v hf hl (by omega)

theorem c1_cache_hit_witness :
    getCachedSubtitle (fun _ => some ⟨5, some [⟨1000, "hi"⟩], "hi"⟩)
        [("a.srt", ⟨"a.srt", [⟨1000, "hi"⟩], 7⟩)] "a.srt" =
      (some ⟨"a.srt", [⟨1000, "hi"⟩], 7⟩,
       [("a.srt", ⟨"a.srt", [⟨1000, "hi"⟩], 7⟩)], 0) :=
  c1_cache_hit.1 (fun _ => some ⟨5, some [⟨1000, "hi"⟩], "hi"⟩)
    [("a.srt", ⟨"a.srt", [⟨1000, "hi"⟩], 7⟩)] "a.srt"
    ⟨5, some [⟨1000, "hi"⟩], "hi"⟩ ⟨"a.srt", [⟨1000, "hi"⟩], 7⟩
    rfl (by decide) (by decide)

/-- C2: cache invalidation.  When the path exists with current modification
time `f.mtime`, every cached entry for it (if any) is strictly older, and
the parse succeeds, `_get_cached_subtitle` re-parses (one parse attempt),
returns a fresh `CachedSubtitle` stamped `last_modified = f.mtime` holding
the newly parsed cues, and stores it under the path — replacing any prior
entry for that path while leaving every other key unchanged
(src lines 316-350). -/
theorem c2_cache_invalidation :
    ∀ (fs : String → Option FSFile) (cache : Cache) (path : String) (f : FSFile)
      (ls : List SubtitleLine),
      fs path = some f →
      (∀ e, cache.lookup path = some e → e.last_modified < f.mtime) →
      f.parsed = some ls →
      getCachedSubtitle fs cache path =
        (some ⟨path, ls.map stripLine, f.mtime⟩,
         cacheInsert cache path ⟨path, ls.map stripLine, f.mtime⟩, 1) ∧
      (cacheInsert cache path ⟨path, ls.map stripLine, f.mtime⟩).lookup path =
        some ⟨path, ls.map stripLine, f.mtime⟩ ∧
      (∀ q, q ≠ path →
        (cacheInsert cache path ⟨path, ls.map stripLine, f.mtime⟩).lookup q =
          cache.lookup q) := by
  intro fs cache path f ls hf hstale hp
  refine ⟨?_, lookup_cacheInsert_self _ _ _, fun q hq => lookup_cacheInsert_ne _ _ _ _ hq⟩
  cases he : cache.lookup path with
  | none =>
      rw [getCached_miss fs cache path f hf he]
      simp [parseAndCache, hp]
  | some e =>
      rw [getCached_stale fs cache path f e hf he (hstale e he)]
      simp [parseAndCache, hp]

theorem c2_cache_invalidation_witness :
    getCachedSubtitle (fun _ => some ⟨10, some [⟨2000, " new "⟩], "x"⟩) [] "a.srt" =
      (some ⟨"a.srt", [SubtitleLine.mk 2000 " new "].map stripLine, 10⟩,
       cacheInsert [] "a.srt" ⟨"a.srt", [SubtitleLine.mk 2000 " new "].map stripLine, 10⟩,
       1) :=
  (c2_cache_invalidation (fun _ => some ⟨10, some [⟨2000, " new "⟩], "x"⟩) [] "a.srt"
    ⟨10, some [⟨2000, " new "⟩], "x"⟩ [⟨2000, " new "⟩] rfl
    (fun e he => by simp [List.lookup] at he) rfl).1

/-- C3: fallback degradation.  For a file that exists but whose structured
parse fails (`pysubs2` raises), and with no cache entry for it, searching
the file via `_search_in_file_cached` (src lines 425-478) raises nothing
(the embedding is total; every exception in the source is caught): if the
compiled query matches anywhere in the file's raw text it reports exactly
one synthetic match whose time column is the unresolved marker `--:--:--`
and whose text is the placeholder `Text found (format not parsed)`, and
otherwise it reports zero matches.  The cache is left unchanged. -/
theorem c3_fallback_degradation :
    ∀ (ctx : Ctx) (cache : Cache) (path term : String) (cs : Bool) (f : FSFile),
      ctx.fs path = some f → f.parsed = none → cache.lookup path = none →
      searchInFileCached ctx cache path term cs =
        ((if patMatches term cs f.raw then
            [⟨getDisplayFilename ctx path, "--:--:--", "Text found (format not parsed)", 0⟩]
          else []), cache) ∧
      (patMatches term cs f.raw = true →
        (searchInFileCached ctx cache path term cs).1.length = 1) ∧
      (patMatches term cs f.raw = false →
        (searchInFileCached ctx cache path term cs).1 = []) := by
  intro ctx cache path term cs f hf hp he
  have hg : getCachedSubtitle ctx.fs cache path = (none, cache, 1) := by
    rw [getCached_miss ctx.fs cache path f hf he]
    simp [parseAndCache, hp]
  have main : searchInFileCached ctx cache path term cs =
      ((if patMatches term cs f.raw then
          [⟨getDisplayFilename ctx path, "--:--:--", "Text found (format not parsed)", 0⟩]
        else []), cache) := by
    simp only [searchInFileCached, hg, hf, hp]
    split <;> rfl
  refine ⟨main, ?_, ?_⟩
  · intro h
    rw [main]
    simp [h]
  · intro h
    rw [main]
    simp [h]

theorem c3_fallback_degradation_witness :
    searchInFileCached ⟨fun _ => some ⟨1, none, "ahoy hello there"⟩, fun _ => none, fun s => s⟩
        [] "bad.srt" "hello" false =
      ([⟨"bad.srt", "--:--:--", "Text found (format not parsed)", 0⟩], []) := by
  have h := (c3_fallback_degradation
    ⟨fun _ => some ⟨1, none, "ahoy hello there"⟩, fun _ => none, fun s => s⟩
    [] "bad.srt" "hello" false ⟨1, none, "ahoy hello there"⟩ rfl rfl rfl).1
  rw [h]
  simp only [getDisplayFilename]
  decide

/-- C5: track extraction isolation (`_extract_mkv_subtitles`,
src lines 211-278).  First part: any whole-container failure of the
metadata probe (non-zero `ffprobe` status or exception) yields an empty
result list, not a propagated exception (the embedding is total).  Second
part: making one stream `j` fail extraction leaves the result exactly equal
to the original result with `j`'s entry filtered out — every sibling stream
is still extracted with unchanged path and track attribution. -/
theorem c5_extraction_isolation :
    (∀ (mkvPath tempDir baseName : String) (ok : Nat → Bool),
        extractMkvSubtitles mkvPath tempDir baseName ⟨none, ok⟩ = []) ∧
    (∀ (mkvPath tempDir baseName : String) (ok : Nat → Bool) (j k : Nat)
        (streams : List MkvStream),
        extractStreams mkvPath tempDir baseName (fun i => ok i && !(i == j)) k streams =
          (extractStreams mkvPath tempDir baseName ok k streams).filter
            (fun e => e.2.track_index != (j : Int))) := by
  constructor
  · intro mkvPath tempDir baseName ok
    rfl
  · intro mkvPath tempDir baseName ok j k streams
    induction streams generalizing k with
    | nil => rfl
    | cons s rest ih =>
        by_cases hk : k = j
        · subst hk
          simp only [extractStreams]
          have hc : (ok k && !(k == k)) = false := by simp
          simp only [hc, Bool.false_eq_true, if_false]
          by_cases ho : ok k = true
          · rw [if_pos ho]
            have hpred : ((extractedTrackInfo mkvPath k s).track_index != (k : Int)) = false := by
              simp [extractedTrackInfo]
            simp only [List.filter_cons, hpred, Bool.false_eq_true, if_false]
            exact ih (k + 1)
          · rw [if_neg ho]
            exact ih (k + 1)
        · simp only [extractStreams]
          have hc : (ok k && !(k == j)) = ok k := by
            have : (k == j) = false := by simpa using hk
            simp [this]
          simp only [hc]
          by_cases ho : ok k = true
          · rw [if_pos ho, if_pos ho]
            have hpred : ((extractedTrackInfo mkvPath k s).track_index != (j : Int)) = true := by
              simp [extractedTrackInfo]
              omega
            simp only [List.filter_cons, hpred, if_true]
            rw [ih (k + 1)]
          · rw [if_neg ho, if_neg ho]
            exact ih (k + 1)

theorem searchInFileCached_snd (ctx : Ctx) (cache : Cache) (p term : String) (cs : Bool) :
    (searchInFileCached ctx cache p term cs).2 = (getCachedSubtitle ctx.fs cache p).2.1 := by
  simp only [searchInFileCached]
  split
  · rfl
  · split
    · rfl
    · split
      · rfl
      · split <;> rfl

theorem coherent_parseAndCache (fs : String → Option FSFile) (cache : Cache) (p : String)
    (f : FSFile) (hf : fs p = some f) (hco : Coherent fs cache) :
    Coherent fs (parseAndCache f cache p).2.1 := by
  cases hp : f.parsed with
  | none =>
      simp only [parseAndCache, hp]
      exact hco
  | some ls =>
      simp only [parseAndCache, hp]
      intro q e hq
      by_cases hqp : q = p
      · subst hqp
        rw [lookup_cacheInsert_self] at hq
        injection hq with hq
        refine ⟨f, hf, ?_⟩
        rw [← hq]
        simp [parsedLines, hp]
      · rw [lookup_cacheInsert_ne _ _ _ _ hqp] at hq
        exact hco q e hq

theorem coherent_getCached (fs : String → Option FSFile) (cache : Cache) (p : String)
    (hco : Coherent fs cache) : Coherent fs (getCachedSubtitle fs cache p).2.1 := by
  cases hf : fs p with
  | none =>
      rw [getCached_fs_none fs cache p hf]
      exact hco
  | some f =>
      cases he : cache.lookup p with
      | some e =>
          by_cases hm : f.mtime ≤ e.last_modified
          · rw [getCached_hit fs cache p f e hf he hm]
            exact hco
          · rw [getCached_stale fs cache p f e hf he (by omega)]
            exact coherent_parseAndCache fs cache p f hf hco
      | none =>
          rw [getCached_miss fs cache p f hf he]
          exact coherent_parseAndCache fs cache p f hf hco

theorem searchInFileCached_pure_parse (ctx : Ctx) (cache : Cache) (p term : String)
    (cs : Bool) (f : FSFile) (hf : ctx.fs p = some f)
    (hg : getCachedSubtitle ctx.fs cache p = parseAndCache f cache p) :
    (searchInFileCached ctx cache p term cs).1 = pureRows ctx p term cs := by
  cases hp : f.parsed with
  | none =>
      have hg2 : getCachedSubtitle ctx.fs cache p = (none, cache, 1) := by
        rw [hg]
        simp [parseAndCache, hp]
      simp only [searchInFileCached, hg2, pureRows, hf, hp]
      split <;> rfl
  | some ls =>
      have hg2 : getCachedSubtitle ctx.fs cache p =
          (some ⟨p, ls.map stripLine, f.mtime⟩,
           cacheInsert cache p ⟨p, ls.map stripLine, f.mtime⟩, 1) := by
        rw [hg]
        simp [parseAndCache, hp]
      simp only [searchInFileCached, hg2, pureRows, hf, hp]

theorem searchInFileCached_pure (ctx : Ctx) (cache : Cache) (p term : String) (cs : Bool)
    (hco : Coherent ctx.fs cache) :
    (searchInFileCached ctx cache p term cs).1 = pureRows ctx p term cs := by
  cases hf : ctx.fs p with
  | none =>
      have hg : getCachedSubtitle ctx.fs cache p = (none, cache, 0) :=
        getCached_fs_none _ _ _ hf
      simp only [searchInFileCached, hg, pureRows, hf]
  | some f =>
      cases he : cache.lookup p with
      | some e =>
          by_cases hm : f.mtime ≤ e.last_modified
          · have hg := getCached_hit ctx.fs cache p f e hf he hm
            obtain ⟨f₂, hf₂, hl₂⟩ := hco p e he
            rw [hf] at hf₂
            injection hf₂ with hf₂
            subst hf₂
            simp only [searchInFileCached, hg, pureRows, hf]
            cases hp : f.parsed with
            | none =>
                rw [parsedLines, hp] at hl₂
                simp at hl₂
            | some ls =>
                have hle : e.lines = ls.map stripLine := by
                  rw [parsedLines, hp] at hl₂
                  simpa using hl₂.symm
                rw [hle]
          · exact searchInFileCached_pure_parse ctx cache p term cs f hf
              (getCached_stale ctx.fs cache p f e hf he (by omega))
      | none =>
          exact searchInFileCached_pure_parse ctx cache p term cs f hf
            (getCached_miss ctx.fs cache p f hf he)

theorem runSearch_rows (ctx : Ctx) (term : String) (cs : Bool) :
    ∀ (order : List String) (cache : Cache), Coherent ctx.fs cache →
      (runSearch ctx term cs order cache).1 =
        order.flatMap (fun p => pureRows ctx p term cs) := by
  intro order
  induction order with
  | nil =>
      intro cache hco
      rfl
  | cons p rest ih =>
      intro cache hco
      have h1 := searchInFileCached_pure ctx cache p term cs hco
      have h2 : Coherent ctx.fs (searchInFileCached ctx cache p term cs).2 := by
        rw [searchInFileCached_snd]
        exact coherent_getCached ctx.fs cache p hco
      simp only [runSearch, List.flatMap_cons]
      rw [h1, ih _ h2]

/-- C9: content determinism of concurrent search.  The per-file tasks of
`_search_worker` (src lines 399-414) read and update the shared cache and
their results are collected in completion order; for any cache coherent
with the (fixed) filesystem view — in particular the empty cache — and any
two completion orders that are permutations of each other, the collected
result lists are permutations of one another, so the set of
`(display_name, start_ms, text)` triples is identical across runs. -/
theorem c9_search_determinism :
    ∀ (ctx : Ctx) (term : String) (cs : Bool) (cache : Cache)
      (order₁ order₂ : List String),
      Coherent ctx.fs cache → order₁.Perm order₂ →
      (runSearch ctx term cs order₁ cache).1.Perm (runSearch ctx term cs order₂ cache).1 ∧
      ∀ t : String × Nat × String,
        (t ∈ (runSearch ctx term cs order₁ cache).1.map
              (fun r => (r.display, r.start_ms, r.text)) ↔
         t ∈ (runSearch ctx term cs order₂ cache).1.map
              (fun r => (r.display, r.start_ms, r.text))) := by
  intro ctx term cs cache o₁ o₂ hco hperm
  have h1 := runSearch_rows ctx term cs o₁ cache hco
  have h2 := runSearch_rows ctx term cs o₂ cache hco
  have hp : (runSearch ctx term cs o₁ cache).1.Perm (runSearch ctx term cs o₂ cache).1 := by
    rw [h1, h2]
    exact hperm.flatMap_right _
  exact ⟨hp, fun t => (hp.map _).mem_iff⟩

theorem c9_search_determinism_witness :
    (runSearch ⟨fun _ => some ⟨1, some [⟨5000, "hello world"⟩], "x"⟩, fun _ => none, fun s => s⟩
        "hello" false ["a.srt", "b.srt"] []).1.Perm
      (runSearch ⟨fun _ => some ⟨1, some [⟨5000, "hello world"⟩], "x"⟩, fun _ => none, fun s => s⟩
        "hello" false ["b.srt", "a.srt"] []).1 :=
  (c9_search_determinism
    ⟨fun _ => some ⟨1, some [⟨5000, "hello world"⟩], "x"⟩, fun _ => none, fun s => s⟩
    "hello" false [] ["a.srt", "b.srt"] ["b.srt", "a.srt"]
    (fun p e h => by simp [List.lookup] at h)
    (List.Perm.swap "b.srt" "a.srt" [])).1

end SubSearch
